import Mathlib

/-!
Verification of the attention core of `flax/experimental/nnx/nnx/nn/attention.py`.

Two embeddings are used, matching the two halves of the module:

* the pure numeric computation (`dot_product_attention_weights`) is embedded
  over the real numbers, with tensors of shape `[batch..., Lq, H, D]`
  represented as functions `β → Fin Lq → Fin H → Fin D → ℝ` (the index types
  enforce exactly the rank/batch/head/depth agreement the source asserts);
* the stateful decode-cache protocol (`init_cache` and the `if self.decode:`
  block of `MultiHeadAttention.__call__`) is embedded over executable arrays
  of rationals, with the leading batch dimensions specialised to none (the
  source treats batch dimensions uniformly there: update indices are 0 and
  the update spans the whole batch).
-/

namespace FlaxAttn

/-- The minimum finite value of the working numeric type; the source uses
`jnp.finfo(dtype).min`, which for the default float32 working type is
`-(2 - 2^-23) * 2^127 = -(2^128 - 2^104)`. -/
noncomputable def floatMin : ℝ := -(2 ^ 128 - 2 ^ 104)

/-- Row maximum, as subtracted by `jax.nn.softmax` for numerical stability. -/
noncomputable def rowMax {n : ℕ} (x : Fin n → ℝ) : ℝ :=
  if h : 0 < n then Finset.univ.sup' ⟨⟨0, h⟩, Finset.mem_univ _⟩ x else 0

/-- `jax.nn.softmax` along the last axis: exponentiate after subtracting the
row maximum, then divide by the row sum. -/
noncomputable def softmax {n : ℕ} (x : Fin n → ℝ) : Fin n → ℝ := fun j =>
  Real.exp (x j - rowMax x) / ∑ k, Real.exp (x k - rowMax x)

/-- Lines 95-100: scale the query by `1 / sqrt depth` and contract
`...qhd,...khd->...hqk`: for every batch/head/query/key tuple, the dot
product over the depth axis of the scaled query and the key. -/
noncomputable def scaled_scores {β : Type} {Lq Lk H D : ℕ}
    (query : β → Fin Lq → Fin H → Fin D → ℝ)
    (key : β → Fin Lk → Fin H → Fin D → ℝ) :
    β → Fin H → Fin Lq → Fin Lk → ℝ :=
  fun b h i j => ∑ d, (query b i h d / Real.sqrt D) * key b j h d

/-- Lines 103-104: `if bias is not None: attn_weights = attn_weights + bias`. -/
def apply_bias {β : Type} {Lq Lk H : ℕ}
    (scores : β → Fin H → Fin Lq → Fin Lk → ℝ)
    (bias : Option (β → Fin H → Fin Lq → Fin Lk → ℝ)) :
    β → Fin H → Fin Lq → Fin Lk → ℝ :=
  match bias with
  | none => scores
  | some bz => fun b h i j => scores b h i j + bz b h i j

/-- Lines 106-108: `attn_weights = jnp.where(mask, attn_weights, big_neg)`
with `big_neg = jnp.finfo(dtype).min`. -/
noncomputable def apply_mask {β : Type} {Lq Lk H : ℕ}
    (scores : β → Fin H → Fin Lq → Fin Lk → ℝ)
    (mask : Option (β → Fin H → Fin Lq → Fin Lk → Bool)) :
    β → Fin H → Fin Lq → Fin Lk → ℝ :=
  match mask with
  | none => scores
  | some m => fun b h i j => if m b h i j then scores b h i j else floatMin

/-- Lines 114-123: inverted dropout. The bernoulli draw from `dropout_rng`
is abstracted into the keep-mask function `keep` (the random-source
capability is external to this core); `broadcast_dropout` only affects which
axes `keep` may vary over, not the arithmetic. -/
noncomputable def apply_dropout {β : Type} {Lq Lk H : ℕ}
    (w : β → Fin H → Fin Lq → Fin Lk → ℝ)
    (deterministic : Bool) (rate : ℝ)
    (keep : β → Fin H → Fin Lq → Fin Lk → Bool) :
    β → Fin H → Fin Lq → Fin Lk → ℝ :=
  if deterministic = false ∧ 0 < rate then
    fun b h i j => w b h i j * ((if keep b h i j then (1 : ℝ) else 0) / (1 - rate))
  else w

/-- Lines 86-125, `dot_product_attention_weights`: scaled scores, plus bias,
masked to `floatMin`, softmax over the key axis, then dropout. -/
noncomputable def dot_product_attention_weights {β : Type} {Lq Lk H D : ℕ}
    (query : β → Fin Lq → Fin H → Fin D → ℝ)
    (key : β → Fin Lk → Fin H → Fin D → ℝ)
    (bias : Option (β → Fin H → Fin Lq → Fin Lk → ℝ))
    (mask : Option (β → Fin H → Fin Lq → Fin Lk → Bool))
    (deterministic : Bool) (rate : ℝ)
    (keep : β → Fin H → Fin Lq → Fin Lk → Bool) :
    β → Fin H → Fin Lq → Fin Lk → ℝ :=
  apply_dropout
    (fun b h i => softmax (apply_mask (apply_bias (scaled_scores query key) bias) mask b h i))
    deterministic rate keep

/-- Query tensor of the C2 counterexample: all zeros, shapes `Lq = 1`,
`H = 1`, `D = 1`. -/
def cexQuery : Unit → Fin 1 → Fin 1 → Fin 1 → ℝ := fun _ _ _ _ => 0

/-- Key tensor of the C2 counterexample: all zeros, `Lk = 2`. -/
def cexKey : Unit → Fin 2 → Fin 1 → Fin 1 → ℝ := fun _ _ _ _ => 0

/-- Bias of the C2 counterexample: `floatMin` at the unmasked key position 1,
0 at the masked key position 0. -/
noncomputable def cexBias : Unit → Fin 1 → Fin 1 → Fin 2 → ℝ :=
  fun _ _ _ j => if j = 1 then floatMin else 0

/-- Mask of the C2 counterexample: key position 0 masked out, position 1 kept. -/
def cexMask : Unit → Fin 1 → Fin 1 → Fin 2 → Bool := fun _ _ _ j => decide (j = 1)

/-- An all-`false` mask over a length-2 key axis, for the C10 witness. -/
def allFalseMask : Unit → Fin 1 → Fin 1 → Fin 2 → Bool := fun _ _ _ _ => false

/-- Errors raised by the attention module: the `inputs_k`/`inputs_v` usage
error (lines 443-448), the autoregressive cache shape error (lines 481-486,
carrying the expected and the actual query shape), the `combine_masks` rank
assertion (lines 629-631, carrying the ranks of the supplied masks), and a
rank error for a cache whose shape cannot be destructured as
`*batch_dims, max_length, num_heads, depth_per_head`. -/
inductive AErr where
  | inputsKV : AErr
  | cacheShapeError (expected actual : List ℕ) : AErr
  | maskRankError (ranks : List ℕ) : AErr
  | cacheRankError : AErr
deriving DecidableEq

/-- A boolean mask array, carried with its rank (`ndim`); `combine_masks`
only inspects the rank and the elementwise values. -/
structure BMask where
  ndim : ℕ
  data : List Bool
deriving DecidableEq

/-- A numeric mask array, the result of `mask.astype(dtype)` in
`combine_masks` (nonzero = allowed). -/
structure NMask where
  ndim : ℕ
  data : List ℚ
deriving DecidableEq

instance exceptDecEq {ε α : Type} [DecidableEq ε] [DecidableEq α] :
    DecidableEq (Except ε α) := fun x y =>
  match x, y with
  | .ok a, .ok b =>
    if h : a = b then isTrue (h ▸ rfl)
    else isFalse fun hc => h (Except.ok.inj hc)
  | .ok _, .error _ => isFalse fun hc => Except.noConfusion hc
  | .error _, .ok _ => isFalse fun hc => Except.noConfusion hc
  | .error e, .error f =>
    if h : e = f then isTrue (h ▸ rfl)
    else isFalse fun hc => h (Except.error.inj hc)

/-- Lines 616-635, `combine_masks`: drop `None` entries; return `None` if
none remain; assert all remaining masks share the first mask's rank;
fold elementwise `logical_and` over the rest starting from the first; cast
the result to the numeric dtype. -/
def combine_masks (masks : List (Option BMask)) : Except AErr (Option NMask) :=
  let masksList := masks.filterMap id
  match masksList with
  | [] => .ok none
  | m :: rest =>
    if (m :: rest).all (fun x => x.ndim == m.ndim) then
      let folded := rest.foldl
        (fun acc x => ⟨acc.ndim, acc.data.zipWith (fun p q => p && q) x.data⟩) m
      .ok (some ⟨folded.ndim, folded.data.map (fun p => if p then (1 : ℚ) else 0)⟩)
    else
      .error (.maskRankError ((m :: rest).map (fun x => x.ndim)))

/-- Rank-2 mask `[[true, true]]`-style operand for the C6 witness. -/
def maskA : BMask := ⟨2, [true, true]⟩

/-- Rank-2 mask with a `false` entry, for the C6 witness. -/
def maskB : BMask := ⟨2, [true, false]⟩

/-- A second all-`true` rank-2 mask for the three-mask C6 witness. -/
def maskC : BMask := ⟨2, [true, true]⟩

/-- A rank-3 mask, rank-incompatible with `maskA`, for the C6 witness. -/
def maskD : BMask := ⟨3, [true, true, true]⟩

/-- An array of rationals with explicit shape. The entries are grouped into
the slices along the first axis (`blocks`), which is the row-major layout
grouped by the leading dimension: for shape `[L, H, D]`, `blocks` has `L`
entries of `H * D` numbers each. -/
structure Arr where
  shape : List ℕ
  blocks : List (List ℚ)
deriving DecidableEq

/-- `jnp.zeros(shape)` in the block layout. -/
def zerosArr (shape : List ℕ) : Arr :=
  ⟨shape, List.replicate (shape.headD 0) (List.replicate shape.tail.prod 0)⟩

/-- The mutable decode cache of `MultiHeadAttention`: `cached_key`,
`cached_value` and the scalar integer `cache_index`. -/
structure MHACache where
  cachedKey : Arr
  cachedValue : Arr
  cacheIndex : ℕ
deriving DecidableEq

/-- Lines 545-550, `MultiHeadAttention.init_cache`:
`cache_shape = (*input_shape[:-1], self.num_heads, self.features_out)`,
both cache tensors zero-filled with that shape, and `cache_index` zero.
(The element dtype argument is irrelevant to the rational-valued model.) -/
def init_cache (numHeads featuresOut : ℕ) (inputShape : List ℕ) : MHACache :=
  let cacheShape := inputShape.dropLast ++ [numHeads, featuresOut]
  ⟨zerosArr cacheShape, zerosArr cacheShape, 0⟩

/-- `lax.dynamic_update_slice(operand, update, (cur, 0, 0))` for an update
spanning one position of the first axis and all of the remaining axes, as in
the decode cache write: the start index is clamped so the update fits
(`min cur (L - 1)` for a length-1 update), and the slice at the clamped
position is replaced by the update's entries. -/
def dynamic_update_slice1 (operand update : Arr) (cur : ℕ) : Arr :=
  match operand.shape with
  | [] => operand
  | L :: _ => ⟨operand.shape, operand.blocks.set (min cur (L - 1)) update.blocks.flatten⟩

/-- Lines 487-494 of `MultiHeadAttention.__call__`: write the new key/value
at `cache_index` into the cache tensors via `dynamic_update_slice`, and
increment `cache_index` by 1. -/
def decode_write (c : MHACache) (keyNew valueNew : Arr) : MHACache :=
  ⟨dynamic_update_slice1 c.cachedKey keyNew c.cacheIndex,
    dynamic_update_slice1 c.cachedValue valueNew c.cacheIndex,
    c.cacheIndex + 1⟩

/-- Lines 472-505, the `if self.decode:` block of
`MultiHeadAttention.__call__`, with the leading batch dimensions specialised
to none (the source treats them uniformly: the update index is 0 there and
the update and the causal-mask broadcast span them whole). In source order:
destructure the cached shape into `max_length, num_heads, depth_per_head`;
check the query's shape against `(1, num_heads, depth_per_head)` and fail
before touching the cache otherwise; write the new key/value at
`cache_index` and increment it (`decode_write`); combine the caller's mask
with the causal mask `jnp.arange(max_length) <= cur_index` (a rank-3
broadcast of shape `(1, 1, max_length)`). The returned state is the cache
after the call, also on the error paths. -/
def decode_block (c : MHACache) (query keyNew valueNew : Arr) (mask : Option BMask) :
    MHACache × Except AErr NMask :=
  match c.cachedKey.shape with
  | [maxLength, numHeads, depthPerHead] =>
    let expectedShape := [1, numHeads, depthPerHead]
    if query.shape ≠ expectedShape then
      (c, .error (.cacheShapeError expectedShape query.shape))
    else
      let curIndex := c.cacheIndex
      let c' := decode_write c keyNew valueNew
      let causal : BMask := ⟨3, (List.range maxLength).map (fun j => decide (j ≤ curIndex))⟩
      match combine_masks [mask, some causal] with
      | .ok (some nm) => (c', .ok nm)
      | .ok none => (c', .error .cacheRankError)
      | .error e => (c', .error e)
  | _ => (c, .error .cacheRankError)

/-- Lines 556-585, `make_attention_mask` for 1-d position inputs and no
extra batch dimensions: broadcast `pairwise_fn` over all `(i, j)` pairs,
insert the singleton heads axis, and cast to the numeric dtype. The result
has shape `[1, len_q, len_kv]`, as nested lists. -/
def make_attention_mask {α : Type} (queryInput keyInput : List α)
    (pairwiseFn : α → α → Bool) : List (List (List ℚ)) :=
  [queryInput.map (fun qi => keyInput.map (fun kj => if pairwiseFn qi kj then (1 : ℚ) else 0))]

/-- Lines 588-613, `make_causal_mask` for a 1-d input `x`: position indices
`0 .. x.length - 1` compared with `jnp.greater_equal`. -/
def make_causal_mask (x : List ℚ) : List (List (List ℚ)) :=
  let idxs := List.range x.length
  make_attention_mask idxs idxs (fun a b => decide (b ≤ a))

/-- Lines 442-451 of `MultiHeadAttention.__call__`: if `inputs_k` is absent,
`inputs_v` must be absent too (usage error otherwise) and both default to
`inputs_q`; if only `inputs_v` is absent it defaults to `inputs_k`. -/
def resolve_inputs {α : Type} (inputs_q : α) (inputs_k inputs_v : Option α) :
    Except AErr (α × α × α) :=
  match inputs_k with
  | none =>
    match inputs_v with
    | some _ => .error .inputsKV
    | none => .ok (inputs_q, inputs_q, inputs_q)
  | some k =>
    match inputs_v with
    | none => .ok (inputs_q, k, k)
    | some v => .ok (inputs_q, k, v)

/-- `MultiHeadAttention.__call__` after input defaulting: the rest of the
call (projections, attention, output projection) is a function of the
resolved `inputs_q`, `inputs_k`, `inputs_v` (together with module state not
affected by the defaulting), abstracted here as `rest`. -/
def mha_call {α R : Type} (rest : α → α → α → R)
    (inputs_q : α) (inputs_k inputs_v : Option α) : Except AErr R :=
  (resolve_inputs inputs_q inputs_k inputs_v).map (fun t => rest t.1 t.2.1 t.2.2)

/-- Query used in the C4 decode scenario: the correct single-position shape
for a cache with one head of depth one. -/
def demoQuery : Arr := ⟨[1, 1, 1], [[1]]⟩

/-- One decode step of the C4 scenario, writing the value `x`. -/
def demoStep (c : MHACache) (x : ℚ) : MHACache × Except AErr NMask :=
  decode_block c demoQuery ⟨[1, 1, 1], [[x]]⟩ ⟨[1, 1, 1], [[x]]⟩ none

/-- Cache state after the first decode call of the C4 scenario. -/
def demoCache1 : MHACache := (demoStep (init_cache 1 1 [4, 1]) 5).1

/-- Cache state after the second decode call of the C4 scenario. -/
def demoCache2 : MHACache := (demoStep demoCache1 6).1

/-- Cache state after the third decode call of the C4 scenario. -/
def demoCache3 : MHACache := (demoStep demoCache2 7).1

theorem sum_exp_pos {n : ℕ} (hn : 0 < n) (x : Fin n → ℝ) :
    0 < ∑ i, Real.exp (x i - rowMax x) :=
  Finset.sum_pos (fun _i _ => Real.exp_pos _)
    ⟨⟨0, hn⟩, Finset.mem_univ _⟩

theorem softmax_nonneg {n : ℕ} (x : Fin n → ℝ) (j : Fin n) : 0 ≤ softmax x j :=
  div_nonneg (Real.exp_pos _).le (le_of_lt (sum_exp_pos j.pos x))

theorem softmax_sum_one {n : ℕ} (hn : 0 < n) (x : Fin n → ℝ) :
    ∑ j, softmax x j = 1 := by
  unfold softmax
  rw [← Finset.sum_div, div_self (ne_of_gt (sum_exp_pos hn x))]

theorem one_le_sum_exp {n : ℕ} (hn : 0 < n) (x : Fin n → ℝ) :
    1 ≤ ∑ i, Real.exp (x i - rowMax x) := by
  obtain ⟨jm, _, hjm⟩ :=
    Finset.exists_mem_eq_sup' (⟨⟨0, hn⟩, Finset.mem_univ _⟩ :
      (Finset.univ : Finset (Fin n)).Nonempty) x
  have hmax : rowMax x = x jm := by
    unfold rowMax
    rw [dif_pos hn]
    exact hjm
  have hone : Real.exp (x jm - rowMax x) = 1 := by rw [hmax, sub_self, Real.exp_zero]
  have hsum : Real.exp (x jm - rowMax x) ≤ ∑ i, Real.exp (x i - rowMax x) :=
    @Finset.single_le_sum (Fin n) ℝ _ (fun i => Real.exp (x i - rowMax x))
      Finset.univ (fun i _ => (Real.exp_pos _).le) jm (Finset.mem_univ jm)
  linarith

theorem le_rowMax {n : ℕ} (x : Fin n → ℝ) (j : Fin n) : x j ≤ rowMax x := by
  unfold rowMax
  rw [dif_pos j.pos]
  exact Finset.le_sup' x (Finset.mem_univ j)

/-- A softmax entry is bounded by `exp (x j - x j₀)` for any reference entry
`j₀`: the denominator is at least 1 (the max term contributes `exp 0`). -/
theorem softmax_le_exp_sub {n : ℕ} (x : Fin n → ℝ) (j j₀ : Fin n) :
    softmax x j ≤ Real.exp (x j - x j₀) := by
  unfold softmax
  calc Real.exp (x j - rowMax x) / ∑ i, Real.exp (x i - rowMax x)
      ≤ Real.exp (x j - rowMax x) :=
        div_le_self (Real.exp_pos _).le (one_le_sum_exp j.pos x)
    _ ≤ Real.exp (x j - x j₀) :=
        Real.exp_le_exp.mpr (by linarith [le_rowMax x j₀])

theorem softmax_const {n : ℕ} (hn : 0 < n) (c : ℝ) (j : Fin n) :
    softmax (fun _ => c) j = 1 / n := by
  have hmax : rowMax (fun _ : Fin n => c) = c := by
    unfold rowMax
    rw [dif_pos hn]
    exact Finset.sup'_const _ c
  unfold softmax
  rw [hmax]
  simp

theorem apply_dropout_of_off {β : Type} {Lq Lk H : ℕ}
    (w : β → Fin H → Fin Lq → Fin Lk → ℝ) (det : Bool) (rate : ℝ)
    (keep : β → Fin H → Fin Lq → Fin Lk → Bool)
    (hdrop : det = true ∨ rate = 0) : apply_dropout w det rate keep = w := by
  unfold apply_dropout
  rcases hdrop with hd | hr
  · rw [if_neg]
    rintro ⟨hf, -⟩
    rw [hd] at hf
    exact Bool.true_eq_false.mp hf
  · rw [if_neg]
    rintro ⟨-, hlt⟩
    rw [hr] at hlt
    exact lt_irrefl 0 hlt

/-- C1: for every valid query/key pair (validity — equal rank, shared batch
dimensions, equal head count, equal per-head depth — is enforced by the
shared index types `β`, `H`, `D`), with dropout not applied
(`deterministic = true` or `dropout_rate = 0`), every slice of the output of
`dot_product_attention_weights` along the last (key-length) axis is a
probability distribution: all entries are non-negative and sum to 1. -/
theorem dpaw_rows_prob_dist {β : Type} {Lq Lk H D : ℕ} (hLk : 0 < Lk)
    (query : β → Fin Lq → Fin H → Fin D → ℝ)
    (key : β → Fin Lk → Fin H → Fin D → ℝ)
    (bias : Option (β → Fin H → Fin Lq → Fin Lk → ℝ))
    (mask : Option (β → Fin H → Fin Lq → Fin Lk → Bool))
    (det : Bool) (rate : ℝ) (keep : β → Fin H → Fin Lq → Fin Lk → Bool)
    (hdrop : det = true ∨ rate = 0) (b : β) (h : Fin H) (i : Fin Lq) :
    (∀ j, 0 ≤ dot_product_attention_weights query key bias mask det rate keep b h i j) ∧
    ∑ j, dot_product_attention_weights query key bias mask det rate keep b h i j = 1 := by
  unfold dot_product_attention_weights
  rw [apply_dropout_of_off _ _ _ _ hdrop]
  exact ⟨fun j => softmax_nonneg _ j, softmax_sum_one hLk _⟩

/-- Witness for C1 at a concrete input. -/
theorem dpaw_rows_prob_dist_w :
    0 < 1 ∧
    ((∀ j, 0 ≤ @dot_product_attention_weights Unit 1 1 1 1
        (fun _ _ _ _ => (0 : ℝ)) (fun _ _ _ _ => (0 : ℝ)) none none true 0
        (fun _ _ _ _ => true) () (0 : Fin 1) (0 : Fin 1) j) ∧
      ∑ j, @dot_product_attention_weights Unit 1 1 1 1
        (fun _ _ _ _ => (0 : ℝ)) (fun _ _ _ _ => (0 : ℝ)) none none true 0
        (fun _ _ _ _ => true) () (0 : Fin 1) (0 : Fin 1) j = 1) :=
  ⟨Nat.one_pos,
    dpaw_rows_prob_dist Nat.one_pos _ _ none none true 0 _ (Or.inl rfl) () 0 0⟩

/-- C2 (amended): when a mask is supplied, every score at a position where the
mask is `false` is replaced by `floatMin` (the minimum finite value of the
working type) before normalization, scores at unmasked positions are left
unchanged, and the post-softmax attention weight at a masked position is at
most `exp (floatMin - s)` where `s` is the (biased) score of any unmasked
position of the same row — hence approximately 0 whenever some unmasked
score exceeds `floatMin` by a sufficient margin, but not regardless of the
bias: a bias can drive every unmasked score down to `floatMin` itself. -/
theorem dpaw_mask_replaces_and_bound {β : Type} {Lq Lk H D : ℕ}
    (query : β → Fin Lq → Fin H → Fin D → ℝ)
    (key : β → Fin Lk → Fin H → Fin D → ℝ)
    (bias : Option (β → Fin H → Fin Lq → Fin Lk → ℝ))
    (m : β → Fin H → Fin Lq → Fin Lk → Bool)
    (det : Bool) (rate : ℝ) (keep : β → Fin H → Fin Lq → Fin Lk → Bool)
    (hdrop : det = true ∨ rate = 0) (b : β) (h : Fin H) (i : Fin Lq)
    (j j₀ : Fin Lk) (hj : m b h i j = false) (hj₀ : m b h i j₀ = true) :
    apply_mask (apply_bias (scaled_scores query key) bias) (some m) b h i j = floatMin ∧
    apply_mask (apply_bias (scaled_scores query key) bias) (some m) b h i j₀
      = apply_bias (scaled_scores query key) bias b h i j₀ ∧
    dot_product_attention_weights query key bias (some m) det rate keep b h i j
      ≤ Real.exp (floatMin - apply_bias (scaled_scores query key) bias b h i j₀) := by
  have hxj : apply_mask (apply_bias (scaled_scores query key) bias) (some m) b h i j
      = floatMin := by simp [apply_mask, hj]
  have hxj0 : apply_mask (apply_bias (scaled_scores query key) bias) (some m) b h i j₀
      = apply_bias (scaled_scores query key) bias b h i j₀ := by simp [apply_mask, hj₀]
  refine ⟨hxj, hxj0, ?_⟩
  unfold dot_product_attention_weights
  rw [apply_dropout_of_off _ _ _ _ hdrop]
  have hb := softmax_le_exp_sub
    (apply_mask (apply_bias (scaled_scores query key) bias) (some m) b h i) j j₀
  rw [hxj, hxj0] at hb
  exact hb

/-- Witness for the C2 amended theorem at a concrete input. -/
theorem dpaw_mask_replaces_and_bound_w :
    cexMask () 0 0 0 = false ∧ cexMask () 0 0 1 = true ∧
    (apply_mask (apply_bias (scaled_scores cexQuery cexKey) none) (some cexMask) () 0 0 0
        = floatMin ∧
      apply_mask (apply_bias (scaled_scores cexQuery cexKey) none) (some cexMask) () 0 0 1
        = apply_bias (scaled_scores cexQuery cexKey) none () 0 0 1 ∧
      dot_product_attention_weights cexQuery cexKey none (some cexMask)
        true 0 (fun _ _ _ _ => true) () 0 0 0
        ≤ Real.exp (floatMin - apply_bias (scaled_scores cexQuery cexKey) none () 0 0 1)) :=
  ⟨rfl, rfl,
    dpaw_mask_replaces_and_bound cexQuery cexKey none cexMask
      true 0 (fun _ _ _ _ => true) (Or.inl rfl) () 0 0 0 1 rfl rfl⟩

/-- C2 counterexample: the claim as stated — the weight at a masked position
is below a small tolerance *regardless of any bias supplied* — is false. With
the bias `cexBias` driving the single unmasked score down to `floatMin`, both
row scores equal `floatMin` and the weight at the masked position is `1/2`,
not below the tolerance `1/100`. -/
theorem dpaw_masked_weight_not_small_cex :
    dot_product_attention_weights cexQuery cexKey (some cexBias) (some cexMask)
      true 0 (fun _ _ _ _ => true) () 0 0 0 = 1 / 2 ∧
    ¬((1 : ℝ) / 2 ≤ 1 / 100) := by
  have hrow : ∀ j : Fin 2,
      apply_mask (apply_bias (scaled_scores cexQuery cexKey) (some cexBias))
        (some cexMask) () 0 0 j = floatMin := by
    intro j
    fin_cases j
    · simp [apply_mask, cexMask]
    · simp [apply_mask, cexMask, apply_bias, cexBias, scaled_scores, cexQuery, cexKey]
  constructor
  · unfold dot_product_attention_weights
    rw [apply_dropout_of_off _ _ _ _ (Or.inl rfl)]
    show softmax (apply_mask (apply_bias (scaled_scores cexQuery cexKey) (some cexBias))
      (some cexMask) () 0 0) 0 = 1 / 2
    have hfun : apply_mask (apply_bias (scaled_scores cexQuery cexKey) (some cexBias))
        (some cexMask) () 0 0 = fun _ : Fin 2 => floatMin := funext hrow
    rw [hfun, softmax_const (by norm_num) floatMin 0]
    norm_num
  · norm_num

/-- C10: if, for some batch/head/query-position row, every key position is
masked `false`, all scores in that row are set to the same `floatMin` value,
softmax yields the uniform distribution over the row (each weight `1 / Lk`),
the row still sums to 1, and the weights are positive, not approximately 0. -/
theorem dpaw_all_masked_uniform {β : Type} {Lq Lk H D : ℕ} (hLk : 0 < Lk)
    (query : β → Fin Lq → Fin H → Fin D → ℝ)
    (key : β → Fin Lk → Fin H → Fin D → ℝ)
    (bias : Option (β → Fin H → Fin Lq → Fin Lk → ℝ))
    (m : β → Fin H → Fin Lq → Fin Lk → Bool)
    (det : Bool) (rate : ℝ) (keep : β → Fin H → Fin Lq → Fin Lk → Bool)
    (hdrop : det = true ∨ rate = 0) (b : β) (h : Fin H) (i : Fin Lq)
    (hall : ∀ j, m b h i j = false) :
    (∀ j, apply_mask (apply_bias (scaled_scores query key) bias) (some m) b h i j = floatMin) ∧
    (∀ j, dot_product_attention_weights query key bias (some m) det rate keep b h i j = 1 / Lk) ∧
    (∑ j, dot_product_attention_weights query key bias (some m) det rate keep b h i j = 1) ∧
    (0 : ℝ) < 1 / Lk := by
  have hrow : ∀ j,
      apply_mask (apply_bias (scaled_scores query key) bias) (some m) b h i j = floatMin := by
    intro j
    simp [apply_mask, hall j]
  have hfun : apply_mask (apply_bias (scaled_scores query key) bias) (some m) b h i
      = fun _ : Fin Lk => floatMin := funext hrow
  refine ⟨hrow, ?_, ?_, ?_⟩
  · intro j
    unfold dot_product_attention_weights
    rw [apply_dropout_of_off _ _ _ _ hdrop]
    show softmax (apply_mask (apply_bias (scaled_scores query key) bias) (some m) b h i) j
      = 1 / Lk
    rw [hfun]
    exact softmax_const hLk floatMin j
  · unfold dot_product_attention_weights
    rw [apply_dropout_of_off _ _ _ _ hdrop]
    exact softmax_sum_one hLk _
  · exact div_pos one_pos (Nat.cast_pos.mpr hLk)

/-- Witness for C10 at a concrete input (a length-2 all-masked row). -/
theorem dpaw_all_masked_uniform_w :
    0 < 2 ∧
    ((∀ j, apply_mask (apply_bias (scaled_scores cexQuery cexKey) none)
        (some allFalseMask) () 0 0 j = floatMin) ∧
      (∀ j, dot_product_attention_weights cexQuery cexKey none
        (some allFalseMask) true 0 (fun _ _ _ _ => true) () 0 0 j = 1 / (2 : ℕ)) ∧
      (∑ j, dot_product_attention_weights cexQuery cexKey none
        (some allFalseMask) true 0 (fun _ _ _ _ => true) () 0 0 j = 1) ∧
      (0 : ℝ) < 1 / (2 : ℕ)) :=
  ⟨by norm_num,
    dpaw_all_masked_uniform (by norm_num) cexQuery cexKey none allFalseMask
      true 0 (fun _ _ _ _ => true) (Or.inl rfl) () 0 0 (fun _ => rfl)⟩

theorem decode_block_fst_cases (c : MHACache) (q kn vn : Arr) (m : Option BMask) :
    (decode_block c q kn vn m).1 = c ∨
    (decode_block c q kn vn m).1 = decode_write c kn vn := by
  simp only [decode_block]
  split
  · split
    · exact Or.inl rfl
    · split <;> exact Or.inr rfl
  · exact Or.inl rfl

theorem decode_block_eq_of_shapes {c : MHACache} {L H D : ℕ} (q kn vn : Arr)
    (m : Option BMask) (hks : c.cachedKey.shape = [L, H, D]) (hqs : q.shape = [1, H, D]) :
    decode_block c q kn vn m =
      (decode_write c kn vn,
        match combine_masks
            [m, some ⟨3, (List.range L).map (fun j => decide (j ≤ c.cacheIndex))⟩] with
        | .ok (some nm) => .ok nm
        | .ok none => .error .cacheRankError
        | .error e => .error e) := by
  rcases c with ⟨⟨ks, kb⟩, cv, ci⟩
  dsimp at hks
  subst hks
  simp only [decode_block, hqs, ne_eq, not_true_eq_false, if_false]
  split <;> rfl

/-- `combine_masks` only ever raises the mask-rank assertion, never the
cache shape error. -/
theorem combine_masks_ne_shape_err (masks : List (Option BMask)) (es as : List ℕ) :
    combine_masks masks ≠ .error (.cacheShapeError es as) := by
  simp only [combine_masks]
  split
  · simp
  · split
    · simp
    · simp

/-- Evaluating `combine_masks` on no caller mask and the decode causal mask. -/
theorem combine_masks_none_causal (L ci : ℕ) :
    combine_masks [none, some ⟨3, (List.range L).map (fun j => decide (j ≤ ci))⟩] =
      .ok (some ⟨3, (List.range L).map (fun j => if j ≤ ci then (1 : ℚ) else 0)⟩) := by
  simp [combine_masks, List.map_map, Function.comp]

/-- Evaluating `combine_masks` on a rank-3 caller mask and the decode causal
mask. -/
theorem combine_masks_some_causal (mm : BMask) (hnd : mm.ndim = 3) (dat : List Bool) :
    combine_masks [some mm, some ⟨3, dat⟩] =
      .ok (some ⟨3, (mm.data.zipWith (fun a b => a && b) dat).map
        (fun a => if a then (1 : ℚ) else 0)⟩) := by
  simp [combine_masks, hnd]

/-- C4 (amended): each successful single-position decode call *with
`cache_index < max_length`* writes the newly projected key/value into the
cache exactly at position `cache_index`, leaves every other cache position
untouched, increments `cache_index` by exactly 1, and combines the
caller-supplied mask with a causal mask permitting exactly the cached
positions `<= cache_index`; when `cache_index` has reached `max_length`, a
call still succeeds but the clamped `dynamic_update_slice` writes at
`max_length - 1` instead (see the counterexample). In particular, after
`init_cache` with `max_length = 4`, three sequential decode calls yield
`cache_index` values 1, 2, 3, write into positions 0, 1, 2, and the third
call's mask permits positions 0, 1, 2 only. -/
theorem decode_block_step_effects {c : MHACache} {L H D : ℕ} (q kn vn : Arr)
    (m : Option BMask)
    (hks : c.cachedKey.shape = [L, H, D]) (hvs : c.cachedValue.shape = [L, H, D])
    (hqs : q.shape = [1, H, D])
    (hklen : c.cachedKey.blocks.length = L) (hvlen : c.cachedValue.blocks.length = L)
    (hidx : c.cacheIndex < L) :
    ((decode_block c q kn vn m).1.cacheIndex = c.cacheIndex + 1 ∧
      (decode_block c q kn vn m).1.cachedKey.blocks[c.cacheIndex]? =
        some kn.blocks.flatten ∧
      (decode_block c q kn vn m).1.cachedValue.blocks[c.cacheIndex]? =
        some vn.blocks.flatten ∧
      (∀ p, p ≠ c.cacheIndex →
        (decode_block c q kn vn m).1.cachedKey.blocks[p]? = c.cachedKey.blocks[p]? ∧
        (decode_block c q kn vn m).1.cachedValue.blocks[p]? = c.cachedValue.blocks[p]?) ∧
      (m = none → (decode_block c q kn vn m).2 =
        .ok ⟨3, (List.range L).map (fun j => if j ≤ c.cacheIndex then (1 : ℚ) else 0)⟩) ∧
      (∀ mm, m = some mm → mm.ndim = 3 → (decode_block c q kn vn m).2 =
        .ok ⟨3, (mm.data.zipWith (fun a b => a && b)
            ((List.range L).map (fun j => decide (j ≤ c.cacheIndex)))).map
            (fun a => if a then (1 : ℚ) else 0)⟩)) ∧
    (demoCache1.cacheIndex = 1 ∧ demoCache2.cacheIndex = 2 ∧ demoCache3.cacheIndex = 3 ∧
      demoCache1.cachedKey.blocks = [[5], [0], [0], [0]] ∧
      demoCache2.cachedKey.blocks = [[5], [6], [0], [0]] ∧
      demoCache3.cachedKey.blocks = [[5], [6], [7], [0]] ∧
      demoCache3.cachedValue.blocks = [[5], [6], [7], [0]] ∧
      (demoStep demoCache2 7).2 = .ok ⟨3, [1, 1, 1, 0]⟩) := by
  have heq := decode_block_eq_of_shapes q kn vn m hks hqs
  have hmin : min c.cacheIndex (L - 1) = c.cacheIndex :=
    Nat.min_eq_left (Nat.le_sub_one_of_lt hidx)
  have hkey : (decode_write c kn vn).cachedKey.blocks =
      c.cachedKey.blocks.set c.cacheIndex kn.blocks.flatten := by
    simp only [decode_write, dynamic_update_slice1, hks, hmin]
  have hval : (decode_write c kn vn).cachedValue.blocks =
      c.cachedValue.blocks.set c.cacheIndex vn.blocks.flatten := by
    simp only [decode_write, dynamic_update_slice1, hvs, hmin]
  have hfst : (decode_block c q kn vn m).1 = decode_write c kn vn := by rw [heq]
  have hsnd : (decode_block c q kn vn m).2 =
      match combine_masks
          [m, some ⟨3, (List.range L).map (fun j => decide (j ≤ c.cacheIndex))⟩] with
      | .ok (some nm) => .ok nm
      | .ok none => .error .cacheRankError
      | .error e => .error e := by rw [heq]
  refine ⟨⟨?_, ?_, ?_, ?_, ?_, ?_⟩, by decide⟩
  · rw [hfst]
    rfl
  · rw [hfst, hkey]
    exact List.getElem?_set_eq_of_lt _ (by omega)
  · rw [hfst, hval]
    exact List.getElem?_set_eq_of_lt _ (by omega)
  · intro p hp
    rw [hfst, hkey, hval]
    exact ⟨List.getElem?_set_ne (Ne.symm hp), List.getElem?_set_ne (Ne.symm hp)⟩
  · intro hm
    subst hm
    rw [hsnd, combine_masks_none_causal]
  · intro mm hm hnd
    subst hm
    rw [hsnd, combine_masks_some_causal mm hnd]

/-- Witness for the C4 amended theorem: the first decode call after
`init_cache 1 1 [4, 1]` increments the index and writes position 0. -/
theorem decode_block_step_effects_w :
    (init_cache 1 1 [4, 1]).cachedKey.shape = [4, 1, 1] ∧
    (init_cache 1 1 [4, 1]).cacheIndex < 4 ∧
    (decode_block (init_cache 1 1 [4, 1]) demoQuery ⟨[1, 1, 1], [[5]]⟩
      ⟨[1, 1, 1], [[5]]⟩ none).1.cacheIndex = (init_cache 1 1 [4, 1]).cacheIndex + 1 :=
  ⟨rfl, by decide,
    (decode_block_step_effects demoQuery ⟨[1, 1, 1], [[5]]⟩ ⟨[1, 1, 1], [[5]]⟩ none
      rfl rfl rfl rfl rfl (by decide)).1.1⟩

/-- C4 counterexample: the unamended claim fails once `cache_index` equals
`max_length`. With a full length-1 cache at `cache_index = 1`, a decode call
still succeeds, but the clamped write lands at position 0 — not at
`cache_index` — so the "other positions untouched" part is violated: the old
entry `[9]` at position 0 is overwritten with `[3]`. -/
theorem decode_block_clamped_write_cex :
    (decode_block ⟨⟨[1, 1, 1], [[9]]⟩, ⟨[1, 1, 1], [[9]]⟩, 1⟩ ⟨[1, 1, 1], [[2]]⟩
        ⟨[1, 1, 1], [[3]]⟩ ⟨[1, 1, 1], [[3]]⟩ none).2 = .ok ⟨3, [1]⟩ ∧
    (decode_block ⟨⟨[1, 1, 1], [[9]]⟩, ⟨[1, 1, 1], [[9]]⟩, 1⟩ ⟨[1, 1, 1], [[2]]⟩
        ⟨[1, 1, 1], [[3]]⟩ ⟨[1, 1, 1], [[3]]⟩ none).1.cachedKey.blocks[(1 : ℕ)]? = none ∧
    (decode_block ⟨⟨[1, 1, 1], [[9]]⟩, ⟨[1, 1, 1], [[9]]⟩, 1⟩ ⟨[1, 1, 1], [[2]]⟩
        ⟨[1, 1, 1], [[3]]⟩ ⟨[1, 1, 1], [[3]]⟩ none).1.cachedKey.blocks[(0 : ℕ)]? =
      some [3] ∧
    ¬(some [(3 : ℚ)] = some [(9 : ℚ)]) := by decide

/-- C5 (amended): the invariant `0 <= cache_index <= max_length` holds after
`init_cache` (the index is 0), and is preserved by every decode call made
from a state with `cache_index` strictly below `max_length`; a successful
call from `cache_index = max_length` yields `max_length + 1`, violating it
(see the counterexample). -/
theorem cache_index_invariant (numHeads featuresOut : ℕ) (inputShape : List ℕ)
    {c : MHACache} {L H D : ℕ} (q kn vn : Arr) (m : Option BMask)
    (_hks : c.cachedKey.shape = [L, H, D]) (hidx : c.cacheIndex < L) :
    (init_cache numHeads featuresOut inputShape).cacheIndex = 0 ∧
    (decode_block c q kn vn m).1.cacheIndex ≤ L := by
  refine ⟨rfl, ?_⟩
  rcases decode_block_fst_cases c q kn vn m with hE | hS
  · rw [hE]
    exact hidx.le
  · rw [hS]
    exact hidx

/-- Witness for the C5 amended theorem. -/
theorem cache_index_invariant_w :
    (init_cache 1 1 [4, 1]).cachedKey.shape = [4, 1, 1] ∧
    (init_cache 1 1 [4, 1]).cacheIndex < 4 ∧
    ((init_cache 2 6 [4, 6]).cacheIndex = 0 ∧
      (decode_block (init_cache 1 1 [4, 1]) demoQuery ⟨[1, 1, 1], [[5]]⟩
        ⟨[1, 1, 1], [[5]]⟩ none).1.cacheIndex ≤ 4) :=
  ⟨rfl, by decide,
    cache_index_invariant 2 6 [4, 6] demoQuery ⟨[1, 1, 1], [[5]]⟩
      ⟨[1, 1, 1], [[5]]⟩ none rfl (by decide)⟩

/-- C5 counterexample: from the state `cache_index = max_length = 2`
(which satisfies the invariant), a decode call succeeds and leaves
`cache_index = 3 > 2`: the invariant is not preserved from every satisfying
state. -/
theorem cache_index_overflow_cex :
    (decode_block ⟨⟨[2, 1, 1], [[0], [0]]⟩, ⟨[2, 1, 1], [[0], [0]]⟩, 2⟩
        ⟨[1, 1, 1], [[4]]⟩ ⟨[1, 1, 1], [[4]]⟩ ⟨[1, 1, 1], [[4]]⟩ none).2 =
      .ok ⟨3, [1, 1]⟩ ∧
    (decode_block ⟨⟨[2, 1, 1], [[0], [0]]⟩, ⟨[2, 1, 1], [[0], [0]]⟩, 2⟩
        ⟨[1, 1, 1], [[4]]⟩ ⟨[1, 1, 1], [[4]]⟩ ⟨[1, 1, 1], [[4]]⟩ none).1.cacheIndex = 3 ∧
    ¬(3 ≤ 2) := by decide

/-- C9: the decode-mode query-shape validation occurs strictly before the
cache mutation: whenever a decode call fails with the cache shape error, the
returned cache state is exactly the state before the call. -/
theorem decode_shape_error_no_mutation (c : MHACache) (q kn vn : Arr)
    (m : Option BMask) (es as : List ℕ)
    (herr : (decode_block c q kn vn m).2 = .error (.cacheShapeError es as)) :
    (decode_block c q kn vn m).1 = c := by
  revert herr
  simp only [decode_block]
  split
  · split
    · intro _
      rfl
    · split
      · simp
      · simp
      · rename_i e hcomb
        intro hcontra
        have h1 : e = .cacheShapeError es as := Except.error.inj hcontra
        subst h1
        exact absurd hcomb (combine_masks_ne_shape_err _ es as)
  · intro _
    rfl

/-- Witness for C9: a query of the wrong shape makes the decode call fail
with the cache shape error and leave the cache untouched. -/
theorem decode_shape_error_no_mutation_w :
    (decode_block ⟨⟨[1, 1, 1], [[0]]⟩, ⟨[1, 1, 1], [[0]]⟩, 0⟩ ⟨[2, 1, 1], [[1], [1]]⟩
        ⟨[1, 1, 1], [[2]]⟩ ⟨[1, 1, 1], [[2]]⟩ none).2 =
      .error (.cacheShapeError [1, 1, 1] [2, 1, 1]) ∧
    (decode_block ⟨⟨[1, 1, 1], [[0]]⟩, ⟨[1, 1, 1], [[0]]⟩, 0⟩ ⟨[2, 1, 1], [[1], [1]]⟩
        ⟨[1, 1, 1], [[2]]⟩ ⟨[1, 1, 1], [[2]]⟩ none).1 =
      ⟨⟨[1, 1, 1], [[0]]⟩, ⟨[1, 1, 1], [[0]]⟩, 0⟩ :=
  ⟨by decide,
    decode_shape_error_no_mutation _ _ _ _ none [1, 1, 1] [2, 1, 1] (by decide)⟩

/-- C3 (code bug): the claim matches the spec and the decode path of
`__call__`, but `init_cache` allocates the last cache axis with
`self.features_out` instead of the per-head depth
`head_dim = features_out // num_heads`. With `num_heads = 2`,
`features_out = 6` (so `head_dim = 3`) and `input_shape = [4, 6]`, the cache
tensors are zero-filled with `cache_index = 0` as claimed, but their shape is
`[4, 2, 6]`, not `[4, 2, 3]`; consequently the decode block, which reads the
last cache axis as `depth_per_head`, rejects the correctly-shaped
single-position query `[1, 2, 3]`. -/
theorem init_cache_shape_bug :
    (init_cache 2 6 [4, 6]).cachedKey.shape = [4, 2, 6] ∧
    (init_cache 2 6 [4, 6]).cachedValue.shape = [4, 2, 6] ∧
    (init_cache 2 6 [4, 6]).cacheIndex = 0 ∧
    (∀ blk ∈ (init_cache 2 6 [4, 6]).cachedKey.blocks, ∀ v ∈ blk, v = 0) ∧
    (∀ blk ∈ (init_cache 2 6 [4, 6]).cachedValue.blocks, ∀ v ∈ blk, v = 0) ∧
    6 / 2 = 3 ∧ [4, 2, 6] ≠ [4, 2, 3] ∧
    (decode_block (init_cache 2 6 [4, 6]) ⟨[1, 2, 3], [List.replicate 6 0]⟩
        ⟨[1, 2, 3], [List.replicate 6 0]⟩ ⟨[1, 2, 3], [List.replicate 6 0]⟩ none).2 =
      .error (.cacheShapeError [1, 2, 6] [1, 2, 3]) := by decide

/-- C6: `combine_masks` returns `None` when all arguments are `None`
(in particular on `(None, None)`); with masks given it returns the
elementwise logical-AND of the non-`None` masks cast to the numeric type;
and it raises the rank assertion when two supplied masks differ in rank. -/
theorem foldl_and_ndim (m : BMask) (rest : List BMask) :
    (rest.foldl
      (fun acc x => (⟨acc.ndim, acc.data.zipWith (fun p q => p && q) x.data⟩ : BMask))
      m).ndim = m.ndim := by
  induction rest generalizing m with
  | nil => rfl
  | cons x rest ih =>
    simp only [List.foldl_cons]
    rw [ih]

theorem foldl_and_length (m : BMask) (rest : List BMask)
    (hlen : ∀ x ∈ rest, x.data.length = m.data.length) :
    (rest.foldl
      (fun acc x => (⟨acc.ndim, acc.data.zipWith (fun p q => p && q) x.data⟩ : BMask))
      m).data.length = m.data.length := by
  induction rest generalizing m with
  | nil => rfl
  | cons x rest ih =>
    simp only [List.foldl_cons]
    have hx : x.data.length = m.data.length := hlen x (List.mem_cons_self _ _)
    have h1 : (m.data.zipWith (fun p q => p && q) x.data).length = m.data.length := by
      rw [List.length_zipWith, hx, Nat.min_self]
    exact (ih ⟨m.ndim, m.data.zipWith (fun p q => p && q) x.data⟩
      (fun y hy => by
        rw [hlen y (List.mem_cons_of_mem _ hy)]
        exact h1.symm)).trans h1

/-- Each entry of the `combine_masks` fold is the conjunction, over all the
non-`None` masks, of that mask's entry at the same index. -/
theorem foldl_and_getElem (m : BMask) (rest : List BMask)
    (hlen : ∀ x ∈ rest, x.data.length = m.data.length) (k : ℕ)
    (hk : k < m.data.length) :
    (rest.foldl
      (fun acc x => (⟨acc.ndim, acc.data.zipWith (fun p q => p && q) x.data⟩ : BMask))
      m).data[k]? = some ((m :: rest).all (fun x => x.data.getD k false)) := by
  induction rest generalizing m with
  | nil =>
    simp only [List.foldl_nil, List.all_cons, List.all_nil, Bool.and_true]
    rw [List.getElem?_eq_getElem hk, List.getD_eq_getElem _ _ hk]
  | cons x rest ih =>
    simp only [List.foldl_cons]
    have hx : x.data.length = m.data.length := hlen x (List.mem_cons_self _ _)
    have h1 : (m.data.zipWith (fun p q => p && q) x.data).length = m.data.length := by
      rw [List.length_zipWith, hx, Nat.min_self]
    have h2 := ih ⟨m.ndim, m.data.zipWith (fun p q => p && q) x.data⟩
      (fun y hy => by
        rw [hlen y (List.mem_cons_of_mem _ hy)]
        exact h1.symm)
      (by
        show k < (m.data.zipWith (fun p q => p && q) x.data).length
        rw [h1]
        exact hk)
    rw [h2]
    congr 1
    simp only [List.all_cons]
    have h3 : (m.data.zipWith (fun p q => p && q) x.data).getD k false =
        (m.data.getD k false && x.data.getD k false) := by
      rw [List.getD_eq_getElem _ _ (by rw [h1]; exact hk), List.getElem_zipWith,
        List.getD_eq_getElem _ _ hk, List.getD_eq_getElem _ _ (by rw [hx]; exact hk)]
    rw [show ((⟨m.ndim, m.data.zipWith (fun p q => p && q) x.data⟩ : BMask)).data.getD k
        false = (m.data.zipWith (fun p q => p && q) x.data).getD k false from rfl,
      h3, Bool.and_assoc]

theorem combine_masks_spec :
    (combine_masks [none, none] = .ok none) ∧
    (∀ ms : List (Option BMask), (∀ x ∈ ms, x = none) → combine_masks ms = .ok none) ∧
    (∀ (ms : List (Option BMask)) (m : BMask) (rest : List BMask),
      ms.filterMap id = m :: rest →
      (∀ x ∈ m :: rest, x.ndim = m.ndim) →
      (∀ x ∈ m :: rest, x.data.length = m.data.length) →
      combine_masks ms =
        .ok (some ⟨m.ndim, (List.range m.data.length).map
          (fun k => if (m :: rest).all (fun x => x.data.getD k false) then (1 : ℚ)
            else 0)⟩)) ∧
    (∀ (ms : List (Option BMask)) (m : BMask) (rest : List BMask) (x : BMask),
      ms.filterMap id = m :: rest → x ∈ m :: rest → x.ndim ≠ m.ndim →
      combine_masks ms =
        .error (.maskRankError ((m :: rest).map (fun y => y.ndim)))) ∧
    (∀ a b : BMask, a.ndim = b.ndim →
      combine_masks [some a, some b] =
        .ok (some ⟨a.ndim, (a.data.zipWith (fun p q => p && q) b.data).map
          (fun p => if p then (1 : ℚ) else 0)⟩)) ∧
    (∀ a b : BMask, a.ndim ≠ b.ndim →
      combine_masks [some a, some b] = .error (.maskRankError [a.ndim, b.ndim])) := by
  refine ⟨rfl, ?_, ?_, ?_, ?_, ?_⟩
  · intro ms hall
    have hnil : ms.filterMap id = [] := by
      rw [List.filterMap_eq_nil_iff]
      exact hall
    simp only [combine_masks, hnil]
  · intro ms m rest hfm hnd hlen
    have hall : ((m :: rest).all (fun x => x.ndim == m.ndim)) = true := by
      rw [List.all_eq_true]
      intro x hx
      exact beq_iff_eq.mpr (hnd x hx)
    simp only [combine_masks, hfm, hall, if_true]
    have hlen' : ∀ x ∈ rest, x.data.length = m.data.length :=
      fun x hx => hlen x (List.mem_cons_of_mem _ hx)
    congr 1
    congr 1
    congr 1
    · exact foldl_and_ndim m rest
    · apply List.ext_getElem
      · rw [List.length_map, foldl_and_length m rest hlen', List.length_map,
          List.length_range]
      · intro i h1i h2i
        have hi : i < m.data.length := by
          rw [List.length_map, foldl_and_length m rest hlen'] at h1i
          exact h1i
        rw [List.getElem_map, List.getElem_map, List.getElem_range]
        have hp := foldl_and_getElem m rest hlen' i hi
        have hlt : i < (rest.foldl
            (fun acc x =>
              (⟨acc.ndim, acc.data.zipWith (fun p q => p && q) x.data⟩ : BMask))
            m).data.length := by
          rw [foldl_and_length m rest hlen']
          exact hi
        rw [List.getElem?_eq_getElem hlt] at hp
        rw [Option.some.inj hp]
  · intro ms m rest x hfm hx hne
    have hall : ¬(((m :: rest).all (fun y => y.ndim == m.ndim)) = true) := by
      intro hco
      exact hne (beq_iff_eq.mp (List.all_eq_true.mp hco x hx))
    simp only [combine_masks, hfm]
    rw [if_neg hall]
  · intro a b hnd
    simp [combine_masks, ← hnd]
  · intro a b hnd
    simp [combine_masks, beq_iff_eq, Ne.symm hnd]

/-- Witness for C6 at concrete masks: an all-`None` list; a four-entry list
with a `None` entry and three rank-2 masks (the AND has a 1 exactly where
all three masks are `true`); a rank mismatch inside a mixed list; and the
two-mask instances. -/
theorem combine_masks_spec_w :
    ((∀ x ∈ ([none, none, none] : List (Option BMask)), x = none) ∧
      combine_masks [none, none, none] = .ok none) ∧
    (([some maskA, none, some maskB, some maskC].filterMap id = [maskA, maskB, maskC]) ∧
      (∀ x ∈ [maskA, maskB, maskC], x.ndim = maskA.ndim) ∧
      (∀ x ∈ [maskA, maskB, maskC], x.data.length = maskA.data.length) ∧
      combine_masks [some maskA, none, some maskB, some maskC] =
        .ok (some ⟨maskA.ndim, (List.range maskA.data.length).map
          (fun k => if [maskA, maskB, maskC].all (fun x => x.data.getD k false)
            then (1 : ℚ) else 0)⟩)) ∧
    (([some maskA, some maskD].filterMap id = [maskA, maskD]) ∧
      maskD ∈ [maskA, maskD] ∧ maskD.ndim ≠ maskA.ndim ∧
      combine_masks [some maskA, some maskD] =
        .error (.maskRankError ([maskA, maskD].map (fun y => y.ndim)))) ∧
    (maskA.ndim = maskB.ndim ∧
      combine_masks [some maskA, some maskB] =
        .ok (some ⟨maskA.ndim, (maskA.data.zipWith (fun p q => p && q)
          maskB.data).map (fun p => if p then (1 : ℚ) else 0)⟩)) ∧
    (maskA.ndim ≠ maskD.ndim ∧
      combine_masks [some maskA, some maskD] =
        .error (.maskRankError [maskA.ndim, maskD.ndim])) :=
  ⟨⟨by decide, combine_masks_spec.2.1 [none, none, none] (by decide)⟩,
    ⟨by decide, by decide, by decide,
      combine_masks_spec.2.2.1 [some maskA, none, some maskB, some maskC]
        maskA [maskB, maskC] (by decide) (by decide) (by decide)⟩,
    ⟨by decide, by decide, by decide,
      combine_masks_spec.2.2.2.1 [some maskA, some maskD] maskA [maskD] maskD
        (by decide) (by decide) (by decide)⟩,
    ⟨by decide, combine_masks_spec.2.2.2.2.1 maskA maskB (by decide)⟩,
    ⟨by decide, combine_masks_spec.2.2.2.2.2 maskA maskD (by decide)⟩⟩

/-- C7: for every 1-d input `x` of length `L`, `make_causal_mask x` has shape
`[1, L, L]` and its entry at query position `i` and key position `j` is 1
(allowed) iff `i >= j`; in particular, for a length-5 sequence the row at
query position 2 is `[1, 1, 1, 0, 0]`. -/
theorem make_causal_mask_entries (x : List ℚ) (i j : ℕ)
    (hi : i < x.length) (hj : j < x.length) :
    (make_causal_mask x).length = 1 ∧
    (∀ p ∈ make_causal_mask x,
      p.length = x.length ∧ ∀ row ∈ p, row.length = x.length) ∧
    (((make_causal_mask x).headD []).getD i []).getD j 0 =
      (if j ≤ i then 1 else 0) ∧
    ((make_causal_mask (List.replicate 5 0)).headD []).getD 2 [] =
      [1, 1, 1, 0, 0] := by
  refine ⟨rfl, ?_, ?_, by decide⟩
  · intro p hp
    simp only [make_causal_mask, make_attention_mask, List.mem_singleton] at hp
    subst hp
    constructor
    · simp
    · intro row hrow
      simp only [List.mem_map] at hrow
      obtain ⟨a, -, ha⟩ := hrow
      subst ha
      simp
  · have hlen1 : (((make_causal_mask x).headD [])).length = x.length := by
      simp [make_causal_mask, make_attention_mask]
    have hi1 : i < (((make_causal_mask x).headD [])).length := by rw [hlen1]; exact hi
    rw [List.getD_eq_getElem _ _ hi1]
    simp only [make_causal_mask, make_attention_mask, List.headD_cons,
      List.getElem_map, List.getElem_range]
    have hlen2 : j < (List.map
        (fun kj => if decide (kj ≤ i) = true then (1 : ℚ) else 0)
        (List.range x.length)).length := by
      simp [hj]
    rw [List.getD_eq_getElem _ _ hlen2]
    simp only [List.getElem_map, List.getElem_range, decide_eq_true_eq]

/-- Witness for C7 on a length-5 input. -/
theorem make_causal_mask_entries_w :
    2 < (List.replicate 5 (0 : ℚ)).length ∧ 4 < (List.replicate 5 (0 : ℚ)).length ∧
    (((make_causal_mask (List.replicate 5 0)).headD []).getD 2 []).getD 4 0 =
      (if 4 ≤ 2 then 1 else 0) :=
  ⟨by decide, by decide,
    (make_causal_mask_entries (List.replicate 5 0) 2 4 (by decide) (by decide)).2.2.1⟩

/-- C8: in `MultiHeadAttention.__call__`, supplying `inputs_v` without
`inputs_k` fails with the usage error; with both absent they default to
`inputs_q`, so a call with only `inputs_q` is identical to explicitly
passing `inputs_k = inputs_q, inputs_v = inputs_q` — for any continuation
`rest` of the call; and with only `inputs_v` absent it defaults to
`inputs_k`. -/
theorem mha_call_defaulting {α R : Type} (rest : α → α → α → R) (q k v : α) :
    mha_call rest q none (some v) = .error .inputsKV ∧
    mha_call rest q none none = mha_call rest q (some q) (some q) ∧
    mha_call rest q (some k) none = mha_call rest q (some k) (some k) :=
  ⟨rfl, rfl, rfl⟩

end FlaxAttn
